import Mathlib

/-!
Verification development for the Pyjoyment event reactor and HTTP user agent.

The definitions below are a shallow embedding of `Pyjo/Reactor/Select.py`
(class `Pyjo_Reactor_Select`) and of `Pyjo/UserAgent/__init__.py`
(class `Pyjo_UserAgent`).  Conventions of the embedding:

* `steady_time()` values and timer durations are rationals (`Rat`); the
  Python floats are only ever compared and added, which `Rat` models.
* A Python dict is an insertion-ordered association list with unique keys
  (`List (Nat × _)`); `dict[k] = v` on a fresh key appends, an in-place
  update of a present key rewrites the pair where it stands, `del` filters
  the key out, iteration (`for k in list(d)`) walks the keys in order.
* Timer callbacks are opaque to the loop: the embedding only records,
  per fired timer, its id, whether it was recurring, and a snapshot of
  the timer table at the moment the callback is invoked (which is what a
  callback observes and what the ordering claims are about).  The truthiness
  test `if t['cb']:` is kept as a `Bool` field.
* The result of the OS-level `select.select` call and the iteration order
  of `list(set(...))` (a Python set has unspecified order) are inputs of
  the model, supplied per loop iteration by an `IterIn` record; theorems
  add as hypotheses exactly the facts `select` guarantees.
* A Python exception escaping the modelled code is `Option.none` /
  `Except.error`.
-/

namespace Pyjo

/-- One entry of `self._timers`: the dict
`{'cb': cb, 'after': after, 'time': steady_time() + after}` with an optional
`'recurring'` key holding the interval.  `cb : Bool` records the truthiness
of the stored callback (tested by `if t['cb']:`). -/
structure Timer where
  cb : Bool
  after : Rat
  time : Rat
  recurring : Option Rat
  deriving Repr, DecidableEq

/-- The `self._timers` dict: insertion-ordered, keys unique. -/
abbrev Timers := List (Nat × Timer)

/-- `self._timers.get(tid)`. -/
def timersGet (ts : Timers) (tid : Nat) : Option Timer :=
  (ts.find? (fun p => p.1 == tid)).map Prod.snd

/-- `del self._timers[tid]`. -/
def timersDel (ts : Timers) (tid : Nat) : Timers :=
  ts.filter (fun p => p.1 != tid)

/-- In-place update `self._timers[tid]['time'] = ...` of a present key:
the pair is rewritten where it stands, insertion order is unchanged. -/
def timersSet (ts : Timers) (tid : Nat) (t : Timer) : Timers :=
  ts.map (fun p => if p.1 == tid then (tid, t) else p)

/-- The timer branch of `remove` (`Select.py` lines 125-134): membership
test, then `del`; returns whether the id was found. -/
def removeTimerTbl (ts : Timers) (tid : Nat) : Timers × Bool :=
  if (ts.map Prod.fst).contains tid then (timersDel ts tid, true)
  else (ts, false)

/-- State of a `Pyjo_Reactor_Select` instance.  `_ios` maps descriptors to
single-callback records `{'cb': cb}`; the callback itself is opaque, so the
dict is kept as its ordered key list. -/
structure Reactor where
  running : Bool
  timers : Timers
  ios : List Nat
  inputs : List Nat
  outputs : List Nat
  deriving Repr, DecidableEq

/-- `watch(handle, read, write)` (`Select.py` lines 172-179): append the
descriptor to an interest list when the flag is set and it is not already
there; never removes anything. -/
def watch (r : Reactor) (fd : Nat) (read write : Bool) : Reactor :=
  let inputs := if read && !(r.inputs.contains fd) then r.inputs ++ [fd] else r.inputs
  let outputs := if write && !(r.outputs.contains fd) then r.outputs ++ [fd] else r.outputs
  { r with inputs := inputs, outputs := outputs }

/-- `io(cb, handle)` (`Select.py` lines 31-41): replace the callback if the
descriptor is known, otherwise add a fresh `{'cb': cb}` record; then
`watch(handle, 1, 1)`.  With callbacks opaque, replacing the callback of a
known descriptor leaves the key list unchanged. -/
def ioReg (r : Reactor) (fd : Nat) : Reactor :=
  let r := if r.ios.contains fd then r else { r with ios := r.ios ++ [fd] }
  watch r fd true true

/-- Argument of `remove`: `None`, a timer id (a `str`), or a handle whose
`fileno()` either yields a descriptor or raises `socket.error`. -/
inductive Removee where
  | isNone : Removee
  | tid (t : Nat) : Removee
  | handle (fd : Option Nat) : Removee
  deriving Repr, DecidableEq

/-- `remove(remove)` (`Select.py` lines 119-153).  Returns the new state and
the Python return value (`none` models the bare `return` for `None`).
For a handle, `fileno()` raising `socket.error` is caught and `False` is
returned with the state untouched; otherwise the descriptor is dropped from
`_inputs` and `_outputs` (`list.remove`, first occurrence) and, when present,
from `_ios`. -/
def remove (r : Reactor) (x : Removee) : Reactor × Option Bool :=
  match x with
  | .isNone => (r, none)
  | .tid t =>
    ({ r with timers := (removeTimerTbl r.timers t).1 },
     some (removeTimerTbl r.timers t).2)
  | .handle none => (r, some false)
  | .handle (some fd) =>
    let inputs := if r.inputs.contains fd then r.inputs.erase fd else r.inputs
    let outputs := if r.outputs.contains fd then r.outputs.erase fd else r.outputs
    if r.ios.contains fd then
      ({ r with inputs := inputs, outputs := outputs, ios := r.ios.erase fd }, some true)
    else
      ({ r with inputs := inputs, outputs := outputs }, some false)

/-- `reset()` (`Select.py` lines 155-159). -/
def reset (r : Reactor) : Reactor :=
  { r with ios := [], inputs := [], outputs := [], timers := [] }

/-- `stop()` (`Select.py` lines 166-167). -/
def stop (r : Reactor) : Reactor :=
  { r with running := false }

/-- `again(tid)` (`Select.py` lines 27-29): `timer['time'] = steady_time()
+ timer['after']`; a missing id raises `KeyError` (modelled `none`). -/
def again (ts : Timers) (tid : Nat) (now : Rat) : Option Timers :=
  match timersGet ts tid with
  | none => none
  | some t => some (timersSet ts tid { t with time := now + t.after })

/-- `_timer(cb, recurring, after)` (`Select.py` lines 190-205) after the
random-id retry loop has produced the fresh id `tid`: the new entry is
appended to the table. -/
def timerAdd (ts : Timers) (tid : Nat) (cb : Bool) (isRecurring : Bool)
    (after now : Rat) : Timers :=
  ts ++ [(tid, { cb := cb, after := after, time := now + after,
                  recurring := if isRecurring then some after else none })]

/-- Events observable in one `one_tick` call, in program order. -/
inductive TraceEv where
  /-- the `select.select(inputs, outputs, inputs, timeout)` wait. -/
  | selectWait (timeout : Rat) : TraceEv
  /-- `time.sleep(timeout)` on the no-descriptor path. -/
  | slept (timeout : Rat) : TraceEv
  /-- the read branch `self._sandbox(io['cb'], 'Read', 0)` for `fd`. -/
  | ioRead (fd : Nat) : TraceEv
  /-- the write branch `self._sandbox(io['cb'], 'Write', 1)` for `fd`. -/
  | ioWrite (fd : Nat) : TraceEv
  /-- `self._sandbox(t['cb'], ...)` for timer `tid`; `tableAtCall` is the
  timer table at the moment the callback runs. -/
  | fired (tid : Nat) (isRecurring : Bool) (tableAtCall : Timers) : TraceEv
  deriving Repr, DecidableEq

/-- The bookkeeping `one_tick` performs on a due timer before invoking its
callback (`Select.py` lines 98-104): a recurring timer gets
`t['time'] = now + t['recurring']`, a one-shot timer is removed via
`self.remove(tid)`. -/
def timerUpd (now : Rat) (ts : Timers) (tid : Nat) (t : Timer) : Timers :=
  match t.recurring with
  | some r => timersSet ts tid { t with time := now + r }
  | none => (removeTimerTbl ts tid).1

/-- What `timerUpd` leaves under the fired key: nothing for a one-shot
timer, the entry with the new deadline `now + interval` (and all other
fields unchanged) for a recurring one. -/
def rescheduled (now : Rat) (t : Timer) : Option Timer :=
  match t.recurring with
  | some r => some { t with time := now + r }
  | none => none

/-- The timer scan of `one_tick` (`Select.py` lines 90-110): iterate over a
snapshot of the keys; skip ids that vanished or are not yet due; apply
`timerUpd` before the callback runs; count the event and invoke the
callback if it is truthy.  Returns the table, the number of events counted
into `i`, and the trace of callback invocations. -/
def timerPhase (now : Rat) : List Nat → Timers → Timers × Nat × List TraceEv
  | [], ts => (ts, 0, [])
  | tid :: rest, ts =>
    match timersGet ts tid with
    | none => timerPhase now rest ts
    | some t =>
      if now < t.time then timerPhase now rest ts
      else
        let ts' := timerUpd now ts tid t
        let res := timerPhase now rest ts'
        (res.1, res.2.1 + 1,
          (if t.cb then [TraceEv.fired tid t.recurring.isSome ts'] else []) ++ res.2.2)

/-- The ids of the timer callbacks a trace invokes, in invocation order. -/
def firedTids (evs : List TraceEv) : List Nat :=
  evs.filterMap (fun e =>
    match e with
    | .fired tid _ _ => some tid
    | _ => none)

/-- The dispatch loop of the I/O phase (`Select.py` lines 76-84) over the
iteration order of `list(set(exceptional + readable + writable))`: the read
branch is taken when the descriptor is readable or exceptional, otherwise
the write branch; each branch looks the descriptor up in `_ios` (a missing
key raises `KeyError`, modelled `none`) and counts one event. -/
def ioPhase (ios readable writable exceptional : List Nat) :
    List Nat → Option (Nat × List TraceEv)
  | [] => some (0, [])
  | fd :: rest =>
    if readable.contains fd || exceptional.contains fd then
      if ios.contains fd then
        (ioPhase ios readable writable exceptional rest).map
          (fun p => (p.1 + 1, TraceEv.ioRead fd :: p.2))
      else none
    else if writable.contains fd then
      if ios.contains fd then
        (ioPhase ios readable writable exceptional rest).map
          (fun p => (p.1 + 1, TraceEv.ioWrite fd :: p.2))
      else none
    else ioPhase ios readable writable exceptional rest

/-- `min(times)` of a nonempty list, as Python computes it. -/
def ratMin (x : Rat) (xs : List Rat) : Rat :=
  xs.foldl min x

/-- Environment of one iteration of the `while not i` loop of `one_tick`:
the `steady_time()` read in the timeout computation, the three lists
returned by `select.select`, the iteration order of `list(set(...))`, and
the `steady_time()` read before the timer scan. -/
structure IterIn where
  t0 : Rat
  readable : List Nat
  writable : List Nat
  exceptional : List Nat
  order : List Nat
  now : Rat
  deriving Repr

/-- One iteration of the `while not i` body (`Select.py` lines 63-110),
after the auto-stop check: compute the timeout from the timers (default
`0.5`, clamped at `0`); if any descriptor is watched run the multiplexing
wait and the dispatch loop, else sleep for a nonzero timeout; then scan the
timers.  `none` models a `KeyError` escaping the dispatch loop. -/
def oneTickIter (it : IterIn) (r : Reactor) : Option (Reactor × Nat × List TraceEv) :=
  let times := r.timers.map (fun p => p.2.time)
  let timeout :=
    match times with
    | [] => (1 : Rat) / 2
    | x :: xs => ratMin x xs - it.t0
  let timeout := if timeout < 0 then 0 else timeout
  if !r.ios.isEmpty then
    match ioPhase r.ios it.readable it.writable it.exceptional it.order with
    | none => none
    | some (n, tr) =>
      let res := timerPhase it.now (r.timers.map Prod.fst) r.timers
      some ({ r with timers := res.1 }, n + res.2.1,
        TraceEv.selectWait timeout :: tr ++ res.2.2)
  else
    let sleepTr := if timeout != 0 then [TraceEv.slept timeout] else []
    let res := timerPhase it.now (r.timers.map Prod.fst) r.timers
    some ({ r with timers := res.1 }, res.2.1, sleepTr ++ res.2.2)

/-- The `while not i` loop of `one_tick` (`Select.py` lines 57-110): at the
top of every iteration, auto-stop when both tables are empty (`return
self.stop()`); otherwise run one iteration and repeat until at least one
event was counted.  The list of `IterIn` environments doubles as fuel:
`none` means the oracle ran out (or a `KeyError` escaped). -/
def oneTickLoop : List IterIn → Reactor → Option (Reactor × List TraceEv)
  | iters, r =>
    if r.timers.isEmpty && r.ios.isEmpty then some (stop r, [])
    else
      match iters with
      | [] => none
      | it :: rest =>
        match oneTickIter it r with
        | none => none
        | some (r', n, tr) =>
          if n == 0 then
            (oneTickLoop rest r').map (fun p => (p.1, tr ++ p.2))
          else some (r', tr)

/-- `one_tick()` (`Select.py` lines 51-114): save `_running`, set it, run
the wait loop, and restore the saved value unless the loop stopped the
reactor during this very call. -/
def one_tick (iters : List IterIn) (r : Reactor) : Option (Reactor × List TraceEv) :=
  let running := r.running
  match oneTickLoop iters { r with running := true } with
  | none => none
  | some (r', tr) =>
    some ((if r'.running then { r' with running := running } else r'), tr)

/-- `start()` (`Select.py` lines 161-164): the `while self._running` loop,
with one oracle list per `one_tick` call. -/
def startLoop : List (List IterIn) → Reactor → Option Reactor
  | oracles, r =>
    if !r.running then some r
    else
      match oracles with
      | [] => none
      | o :: rest =>
        match one_tick o r with
        | none => none
        | some (r', _) => startLoop rest r'

/-- `start()`: set `_running = True`, then loop. -/
def start (oracles : List (List IterIn)) (r : Reactor) : Option Reactor :=
  startLoop oracles { r with running := true }

/-! ### Connection / transaction engine (`Pyjo/UserAgent/__init__.py`)

The `Pyjo.Transaction` collaborator is not part of the studied sources; per
the specification it is an incremental codec with the capability set
`{client_read(bytes), client_write() -> bytes, is_writing, is_finished}`.
It is modelled abstractly: a `Tx` carries the two status flags, a
truthiness flag (for the `if not tx:` guard), and an oracle list `pending`
from which `client_write()` draws its chunk and the flag values holding
after the call. -/

/-- Modelled from the spec: the external Transaction collaborator, with
`client_write` behaviour supplied by the `pending` oracle. -/
structure Tx where
  present : Bool
  isWriting : Bool
  isFinished : Bool
  pending : List (String × Bool × Bool)
  deriving Repr, DecidableEq

/-- Modelled from the spec: `tx.client_write()` returns the next chunk and
updates the status flags according to the oracle. -/
def clientWrite (tx : Tx) : String × Tx :=
  match tx.pending with
  | [] => ("", { tx with isWriting := false })
  | (chunk, w, f) :: rest =>
    (chunk, { tx with isWriting := w, isFinished := f, pending := rest })

/-- One entry of `self._connections`: the dict
`{'cb': cb, 'nb': nb, 'tx': tx, 'writing': False}` built by `_connection`
(`UserAgent/__init__.py` line 176); the completion callback is opaque. -/
structure Conn where
  nb : Bool
  tx : Tx
  writing : Bool
  deriving Repr, DecidableEq

/-- State of a `Pyjo_UserAgent` instance that the studied methods touch. -/
structure UA where
  connections : List (Nat × Conn)
  deriving Repr, DecidableEq

/-- `self._connections[cid]` as a lookup. -/
def connGet (ua : UA) (cid : Nat) : Option Conn :=
  ((ua.connections.find? (fun p => p.1 == cid))).map Prod.snd

/-- Rewrite the entry of a present connection id in place. -/
def connSet (ua : UA) (cid : Nat) (c : Conn) : UA :=
  { ua with connections :=
      ua.connections.map (fun p => if p.1 == cid then (cid, c) else p) }

/-- Observable actions of the engine methods, in program order. -/
inductive UAEv where
  /-- `self.emit('start', tx)` in `_start`. -/
  | emittedStart : UAEv
  /-- `_connect`: the reactor-level client connect request for `cid`. -/
  | connectRequested (cid : Nat) : UAEv
  /-- a loop timer armed by `_loop(nb).timer(...)` with this message. -/
  | timerArmed (cid : Nat) (msg : String) (after : Rat) : UAEv
  /-- `_write`: the chunk pull `tx.client_write()`. -/
  | pulledChunk (cid : Nat) : UAEv
  /-- `_write`: `stream(cid).write(chunk)`. -/
  | streamWrote (cid : Nat) (chunk : String) : UAEv
  /-- `_write`: the trailing `stream.write(b'', cb=...)` that schedules the
  write-completion callback re-entering `_write`. -/
  | scheduledWriteCb (cid : Nat) : UAEv
  deriving Repr, DecidableEq

/-- Python exceptions that escape the modelled engine methods. -/
inductive PyErr where
  /-- attribute lookup failed (no such attribute on the object). -/
  | attributeError (attr : String) : PyErr
  /-- a call with a missing required positional argument. -/
  | typeError (what : String) : PyErr
  deriving Repr, DecidableEq

/-- `_write(cid)` (`UserAgent/__init__.py` lines 234-270).  Guards in
source order: unknown id; falsy record (`if not c:`, never taken for the
nonempty dict `_connection` stores, kept for fidelity via `Conn` being a
structure, hence always truthy); falsy transaction; `not tx.is_writing`;
the `c['writing']` re-entrancy guard.  Past the guards: set the flag, pull
a chunk, clear the flag, write the chunk to the stream; `self._finish(cid)`
raises `TypeError` (the method signature `_finish(self, cid, close)`
requires the `close` argument); otherwise chain the zero-length write when
the transaction still wants to write. -/
def uaWrite (ua : UA) (cid : Nat) : List UAEv × Except PyErr UA :=
  match connGet ua cid with
  | none => ([], .ok ua)
  | some c =>
    if !c.tx.present then ([], .ok ua)
    else if !c.tx.isWriting then ([], .ok ua)
    else if c.writing then ([], .ok ua)
    else
      let (chunk, tx') := clientWrite c.tx
      let ua' := connSet ua cid { c with tx := tx', writing := false }
      let evs := [UAEv.pulledChunk cid, UAEv.streamWrote cid chunk]
      if tx'.isFinished then
        (evs, .error (.typeError "_finish() missing argument close"))
      else if !tx'.isWriting then (evs, .ok ua')
      else (evs ++ [UAEv.scheduledWriteCb cid], .ok ua')

/-- `_connection(nb, tx, cb)` (`UserAgent/__init__.py` lines 165-178) with
the connection id `cid` returned by `_loop(nb).client(...)`: request the
connect and store `{'cb': cb, 'nb': nb, 'tx': tx, 'writing': False}`. -/
def uaConnection (ua : UA) (nb : Bool) (tx : Tx) (cid : Nat) : UA × List UAEv :=
  ({ ua with connections :=
      ua.connections ++ [(cid, { nb := nb, tx := tx, writing := false })] },
   [UAEv.connectRequested cid])

/-- `_start(nb, tx, cb)` (`UserAgent/__init__.py` lines 218-229): emit
`start`, create the connection, then, when `self.request_timeout` is
nonzero, evaluate the right-hand side `self._loop(nb).timer(lambda loop:
self._error(cid, 'Request timeout'), timeout)` — arming the timer — and
assign it to `self.connections[id][timeout]`.  The class (and its bases)
define `_connections` but no attribute `connections`, so the assignment
target raises `AttributeError` and `_start` never reaches `return cid`. -/
def uaStart (ua : UA) (nb : Bool) (tx : Tx) (cid : Nat) (requestTimeout : Rat) :
    List UAEv × Except PyErr (UA × Nat) :=
  let (ua1, evs1) := uaConnection ua nb tx cid
  let evs := UAEv.emittedStart :: evs1
  if requestTimeout != 0 then
    (evs ++ [UAEv.timerArmed cid "Request timeout" requestTimeout],
     .error (.attributeError "connections"))
  else
    (evs, .ok (ua1, cid))

/-- How a callback body names the engine object it reaches back into. -/
inductive RefKind where
  /-- the closed-over strong reference `self`. -/
  | strongSelf : RefKind
  /-- the weak proxy `connect_vars.ua` built by `weakref.proxy(self)`. -/
  | weakProxy : RefKind
  /-- the first parameter of the lambda, which at fire time is the event
  emitter (the stream), not the engine. -/
  | eventArg : RefKind
  deriving Repr, DecidableEq

/-- One stream event handler: which event it is registered for, how its
body references the engine, and what its truthiness guard (if any) tests. -/
structure StreamHandler where
  event : String
  engineRef : RefKind
  guardsOn : Option RefKind
  deriving Repr, DecidableEq

/-- The four handlers installed on the stream by `client_cb` in `_connect`
(`UserAgent/__init__.py` lines 138-141), read off the lambdas:
`timeout` is `lambda ua: self._error(cid, 'Inactivity timeout')`;
`close` is `lambda ua: ua and self._finish(cid, True)`;
`error` is `lambda ua, err: ua and self._error(cid, err)`;
`read` is `lambda ua, chunk: self._read(cid, chunk)`.
In each lambda the name `ua` is the lambda parameter, bound at fire time
to the emitting stream — it shadows the weak proxy `connect_vars.ua` of the
enclosing scope — while every body reaches the engine through the strong
closed-over `self`. -/
def streamHandlers : List StreamHandler :=
  [ { event := "timeout", engineRef := .strongSelf, guardsOn := none },
    { event := "close", engineRef := .strongSelf, guardsOn := some .eventArg },
    { event := "error", engineRef := .strongSelf, guardsOn := some .eventArg },
    { event := "read", engineRef := .strongSelf, guardsOn := none } ]

/-! ### Concrete states used to instantiate the theorems -/

/-- Two one-shot timers both due at instant 10, the one inserted first
having the later deadline. -/
def tsPair : Timers :=
  [(0, { cb := true, after := 10, time := 10, recurring := none }),
   (1, { cb := true, after := 5, time := 5, recurring := none })]

/-- A single due one-shot timer. -/
def tsOne : Timers :=
  [(3, { cb := true, after := 2, time := 6, recurring := none })]

/-- A single due recurring timer with interval 4. -/
def tsRec : Timers :=
  [(5, { cb := true, after := 4, time := 6, recurring := some 4 })]

/-- An empty, running reactor. -/
def rEmpty : Reactor :=
  { running := true, timers := [], ios := [], inputs := [], outputs := [] }

/-- A reactor with one timer and one fully registered descriptor. -/
def rOne : Reactor :=
  { running := true, timers := tsOne, ios := [9], inputs := [9], outputs := [9] }

/-- A transaction that wants to write, with one pending chunk. -/
def txW : Tx :=
  { present := true, isWriting := true, isFinished := false,
    pending := [("GET / HTTP/1.1", true, false)] }

/-- An engine with connection 7 currently inside its write window. -/
def uaBusy : UA :=
  { connections := [(7, { nb := true, tx := txW, writing := true })] }

/-! ### Association-list lemmas for the timer table -/
theorem timersGet_cons_self (p : Nat × Timer) (rest : Timers) (tid : Nat)
    (h : p.1 = tid) : timersGet (p :: rest) tid = some p.2 := by
  rw [timersGet, List.find?_cons_of_pos _ (by simp [h])]
  rfl

theorem timersGet_cons_ne (p : Nat × Timer) (rest : Timers) (tid : Nat)
    (h : p.1 ≠ tid) : timersGet (p :: rest) tid = timersGet rest tid := by
  rw [timersGet, List.find?_cons_of_neg _ (by simp [h])]
  rfl

theorem timersGet_del_self (ts : Timers) (tid : Nat) :
    timersGet (timersDel ts tid) tid = none := by
  induction ts with
  | nil => rfl
  | cons p rest ih =>
    by_cases hp : p.1 = tid
    · have h1 : timersDel (p :: rest) tid = timersDel rest tid := by
        simp [timersDel, List.filter_cons, hp]
      rw [h1]
      exact ih
    · have h1 : timersDel (p :: rest) tid = p :: timersDel rest tid := by
        simp [timersDel, List.filter_cons, hp]
      rw [h1, timersGet_cons_ne p _ tid hp]
      exact ih

theorem timersGet_del_ne (ts : Timers) (k tid : Nat) (h : k ≠ tid) :
    timersGet (timersDel ts k) tid = timersGet ts tid := by
  induction ts with
  | nil => rfl
  | cons p rest ih =>
    by_cases hp : p.1 = k
    · have h1 : timersDel (p :: rest) k = timersDel rest k := by
        simp [timersDel, List.filter_cons, hp]
      have hpt : p.1 ≠ tid := fun e => h (hp.symm.trans e)
      rw [h1, ih, timersGet_cons_ne p rest tid hpt]
    · have h1 : timersDel (p :: rest) k = p :: timersDel rest k := by
        simp [timersDel, List.filter_cons, hp]
      by_cases ht : p.1 = tid
      · rw [h1, timersGet_cons_self p _ tid ht, timersGet_cons_self p rest tid ht]
      · rw [h1, timersGet_cons_ne p _ tid ht, timersGet_cons_ne p rest tid ht]
        exact ih

theorem timersSet_cons (p : Nat × Timer) (rest : Timers) (k : Nat) (t : Timer) :
    timersSet (p :: rest) k t
      = (if p.1 == k then (k, t) else p) :: timersSet rest k t := rfl

theorem timersGet_set_ne (ts : Timers) (k tid : Nat) (t : Timer) (h : k ≠ tid) :
    timersGet (timersSet ts k t) tid = timersGet ts tid := by
  induction ts with
  | nil => rfl
  | cons p rest ih =>
    rw [timersSet_cons]
    by_cases hp : p.1 = k
    · have hkt : ((k, t) : Nat × Timer).1 ≠ tid := h
      have hpt : p.1 ≠ tid := fun e => h (hp.symm.trans e)
      rw [if_pos (by simp [hp]), timersGet_cons_ne _ _ tid hkt,
        timersGet_cons_ne p rest tid hpt]
      exact ih
    · by_cases ht : p.1 = tid
      · rw [if_neg (by simp [hp]), timersGet_cons_self p _ tid ht,
          timersGet_cons_self p rest tid ht]
      · rw [if_neg (by simp [hp]), timersGet_cons_ne p _ tid ht,
          timersGet_cons_ne p rest tid ht]
        exact ih

theorem timersGet_set_self (ts : Timers) (tid : Nat) (t x : Timer)
    (h : timersGet ts tid = some t) :
    timersGet (timersSet ts tid x) tid = some x := by
  induction ts with
  | nil => simp [timersGet] at h
  | cons p rest ih =>
    rw [timersSet_cons]
    by_cases hp : p.1 = tid
    · rw [if_pos (by simp [hp]), timersGet_cons_self _ _ tid rfl]
    · rw [timersGet_cons_ne p rest tid hp] at h
      rw [if_neg (by simp [hp]), timersGet_cons_ne p _ tid hp]
      exact ih h

theorem timersGet_mem (ts : Timers) (tid : Nat) (t : Timer)
    (h : timersGet ts tid = some t) : tid ∈ ts.map Prod.fst := by
  induction ts with
  | nil => simp [timersGet] at h
  | cons p rest ih =>
    by_cases hp : p.1 = tid
    · simp [hp]
    · rw [timersGet_cons_ne p rest tid hp] at h
      simp only [List.map_cons, List.mem_cons]
      exact Or.inr (ih h)

theorem timersGet_removeTbl_ne (ts : Timers) (k tid : Nat) (h : k ≠ tid) :
    timersGet (removeTimerTbl ts k).1 tid = timersGet ts tid := by
  rw [removeTimerTbl]
  by_cases hm : (ts.map Prod.fst).contains k = true
  · rw [if_pos hm]
    exact timersGet_del_ne ts k tid h
  · rw [if_neg hm]

theorem timersGet_upd_ne (now : Rat) (ts : Timers) (tid : Nat) (t : Timer)
    (k : Nat) (h : tid ≠ k) :
    timersGet (timerUpd now ts tid t) k = timersGet ts k := by
  rw [timerUpd]
  cases t.recurring with
  | none => exact timersGet_removeTbl_ne ts tid k h
  | some r => exact timersGet_set_ne ts tid k _ h

theorem timersGet_upd_self (now : Rat) (ts : Timers) (tid : Nat) (t : Timer)
    (h : timersGet ts tid = some t) :
    timersGet (timerUpd now ts tid t) tid = rescheduled now t := by
  rw [timerUpd, rescheduled]
  cases t.recurring with
  | none =>
    have hm : (ts.map Prod.fst).contains tid = true := by
      have := timersGet_mem ts tid t h
      simpa using this
    rw [removeTimerTbl, if_pos hm]
    exact timersGet_del_self ts tid
  | some r => exact timersGet_set_self ts tid t _ h

/-! ### Unfolding lemmas for the timer scan -/

theorem timerPhase_nil (now : Rat) (ts : Timers) :
    timerPhase now [] ts = (ts, 0, []) := rfl

theorem timerPhase_cons_none (now : Rat) (tid : Nat) (rest : List Nat)
    (ts : Timers) (h : timersGet ts tid = none) :
    timerPhase now (tid :: rest) ts = timerPhase now rest ts := by
  simp only [timerPhase, h]

theorem timerPhase_cons_skip (now : Rat) (tid : Nat) (rest : List Nat)
    (ts : Timers) (t : Timer) (h : timersGet ts tid = some t)
    (hlt : now < t.time) :
    timerPhase now (tid :: rest) ts = timerPhase now rest ts := by
  simp only [timerPhase, h, if_pos hlt]

theorem timerPhase_cons_due (now : Rat) (tid : Nat) (rest : List Nat)
    (ts : Timers) (t : Timer) (h : timersGet ts tid = some t)
    (hge : ¬ now < t.time) :
    timerPhase now (tid :: rest) ts =
      ((timerPhase now rest (timerUpd now ts tid t)).1,
       (timerPhase now rest (timerUpd now ts tid t)).2.1 + 1,
       (if t.cb then
          [TraceEv.fired tid t.recurring.isSome (timerUpd now ts tid t)]
        else []) ++ (timerPhase now rest (timerUpd now ts tid t)).2.2) := by
  simp only [timerPhase, h, if_neg hge]

/-- Keys not on the scan list keep their table entry through the scan. -/
theorem timerPhase_get_preserved (now : Rat) (keys : List Nat) :
    ∀ (ts : Timers) (tid : Nat), tid ∉ keys →
      timersGet (timerPhase now keys ts).1 tid = timersGet ts tid := by
  induction keys with
  | nil => intro ts tid _; rfl
  | cons k rest ih =>
    intro ts tid hnin
    have hk : k ≠ tid := fun e => hnin (by rw [e]; exact List.mem_cons_self _ _)
    have hrest : tid ∉ rest := fun hm => hnin (List.mem_cons_of_mem _ hm)
    match hget : timersGet ts k with
    | none =>
      rw [timerPhase_cons_none now k rest ts hget]
      exact ih ts tid hrest
    | some t =>
      by_cases hlt : now < t.time
      · rw [timerPhase_cons_skip now k rest ts t hget hlt]
        exact ih ts tid hrest
      · rw [timerPhase_cons_due now k rest ts t hget hlt]
        rw [ih (timerUpd now ts k t) tid hrest]
        exact timersGet_upd_ne now ts k t tid hk

/-- The callbacks invoked by one timer scan are exactly the scanned keys
that are present, due and truthy, in scan order. -/
theorem timerPhase_fired_keys (now : Rat) (keys : List Nat) :
    ∀ ts : Timers, keys.Nodup →
      firedTids (timerPhase now keys ts).2.2
        = keys.filter (fun tid =>
            match timersGet ts tid with
            | some t => !decide (now < t.time) && t.cb
            | none => false) := by
  induction keys with
  | nil => intro ts _; rfl
  | cons tid rest ih =>
    intro ts hnd
    obtain ⟨hnin, hrest⟩ := List.nodup_cons.mp hnd
    rw [List.filter_cons]
    match hget : timersGet ts tid with
    | none =>
      rw [timerPhase_cons_none now tid rest ts hget, if_neg (by simp [hget])]
      exact ih ts hrest
    | some t =>
      by_cases hlt : now < t.time
      · rw [timerPhase_cons_skip now tid rest ts t hget hlt,
          if_neg (by simp [hget, hlt])]
        exact ih ts hrest
      · rw [timerPhase_cons_due now tid rest ts t hget hlt]
        have hih := ih (timerUpd now ts tid t) hrest
        have hcong : rest.filter (fun k =>
              match timersGet (timerUpd now ts tid t) k with
              | some u => !decide (now < u.time) && u.cb
              | none => false)
            = rest.filter (fun k =>
              match timersGet ts k with
              | some u => !decide (now < u.time) && u.cb
              | none => false) := by
          apply List.filter_congr
          intro k hk
          have hne : tid ≠ k := fun e => hnin (e ▸ hk)
          rw [timersGet_upd_ne now ts tid t k hne]
        rw [hcong] at hih
        cases hcb : t.cb with
        | true =>
          simp only [hcb, if_true, firedTids, List.filterMap_append,
            List.filterMap_cons, List.filterMap_nil] at hih ⊢
          rw [hih]
          simp [hlt]
        | false =>
          simp only [hcb, if_false, firedTids, List.filterMap_append,
            List.filterMap_nil, List.nil_append] at hih ⊢
          rw [hih]
          simp

/-- A present, due, truthy timer on the scan list has its callback invoked
with its own table entry already updated (gone for one-shot, rescheduled to
`now + interval` for recurring), and the scan leaves that update in the
final table. -/
theorem timerPhase_fires (now : Rat) (keys : List Nat) :
    ∀ (ts : Timers) (tid : Nat) (t : Timer), keys.Nodup → tid ∈ keys →
      timersGet ts tid = some t → ¬ now < t.time → t.cb = true →
      ∃ tbl,
        TraceEv.fired tid t.recurring.isSome tbl ∈ (timerPhase now keys ts).2.2 ∧
        timersGet tbl tid = rescheduled now t ∧
        timersGet (timerPhase now keys ts).1 tid = rescheduled now t := by
  induction keys with
  | nil => intro ts tid t _ hmem; cases hmem
  | cons k rest ih =>
    intro ts tid t hnd hmem hget hdue hcb
    obtain ⟨hnin, hrest⟩ := List.nodup_cons.mp hnd
    by_cases hk : k = tid
    · subst hk
      rw [timerPhase_cons_due now k rest ts t hget hdue]
      refine ⟨timerUpd now ts k t, ?_, ?_, ?_⟩
      · rw [hcb]
        simp
      · exact timersGet_upd_self now ts k t hget
      · rw [timerPhase_get_preserved now rest (timerUpd now ts k t) k hnin]
        exact timersGet_upd_self now ts k t hget
    · have hmem' : tid ∈ rest := by
        rcases List.mem_cons.mp hmem with he | hm
        · exact absurd he.symm hk
        · exact hm
      match hgetk : timersGet ts k with
      | none =>
        rw [timerPhase_cons_none now k rest ts hgetk]
        exact ih ts tid t hrest hmem' hget hdue hcb
      | some u =>
        by_cases hlt : now < u.time
        · rw [timerPhase_cons_skip now k rest ts u hgetk hlt]
          exact ih ts tid t hrest hmem' hget hdue hcb
        · rw [timerPhase_cons_due now k rest ts u hgetk hlt]
          have hget' : timersGet (timerUpd now ts k u) tid = some t := by
            rw [timersGet_upd_ne now ts k u tid hk]
            exact hget
          obtain ⟨tbl, hmemEv, htbl, hfin⟩ :=
            ih (timerUpd now ts k u) tid t hrest hmem' hget' hdue hcb
          exact ⟨tbl, List.mem_append.mpr (Or.inr hmemEv), htbl, hfin⟩

/-! ### Lemmas for the I/O dispatch loop -/

/-- When every descriptor in the iteration order has a watcher record, the
dispatch loop raises no `KeyError`. -/
theorem ioPhase_total (ios readable writable exceptional : List Nat) :
    ∀ order : List Nat, (∀ g ∈ order, g ∈ ios) →
      ∃ n tr, ioPhase ios readable writable exceptional order = some (n, tr) := by
  intro order
  induction order with
  | nil => intro _; exact ⟨0, [], rfl⟩
  | cons g rest ih =>
    intro hall
    have hg := hall g (List.mem_cons_self _ _)
    obtain ⟨n, tr, hrec⟩ := ih (fun x hx => hall x (List.mem_cons_of_mem _ hx))
    by_cases hr : g ∈ readable ∨ g ∈ exceptional
    · exact ⟨n + 1, TraceEv.ioRead g :: tr, by simp [ioPhase, hr, hg, hrec]⟩
    · by_cases hw : g ∈ writable
      · exact ⟨n + 1, TraceEv.ioWrite g :: tr, by simp [ioPhase, hr, hw, hg, hrec]⟩
      · exact ⟨n, tr, by simp [ioPhase, hr, hw, hrec]⟩

/-- A descriptor absent from the iteration order is never dispatched. -/
theorem ioPhase_count_out (ios readable writable exceptional : List Nat) :
    ∀ (order : List Nat) (n : Nat) (tr : List TraceEv) (fd : Nat), fd ∉ order →
      ioPhase ios readable writable exceptional order = some (n, tr) →
      tr.count (TraceEv.ioRead fd) = 0 ∧ tr.count (TraceEv.ioWrite fd) = 0 := by
  intro order
  induction order with
  | nil =>
    intro n tr fd _ h
    simp only [ioPhase, Option.some.injEq, Prod.mk.injEq] at h
    rw [← h.2]
    exact ⟨rfl, rfl⟩
  | cons g rest ih =>
    intro n tr fd hnin h
    have hgfd : g ≠ fd := fun e => hnin (by rw [e]; exact List.mem_cons_self _ _)
    have hrest : fd ∉ rest := fun hm => hnin (List.mem_cons_of_mem _ hm)
    rcases hrec0 : ioPhase ios readable writable exceptional rest with _ | p
    · by_cases hr : g ∈ readable ∨ g ∈ exceptional
      · by_cases hg : g ∈ ios
        · simp [ioPhase, hr, hg, hrec0] at h
        · simp [ioPhase, hr, hg] at h
      · by_cases hw : g ∈ writable
        · by_cases hg : g ∈ ios
          · simp [ioPhase, hr, hw, hg, hrec0] at h
          · simp [ioPhase, hr, hw, hg] at h
        · simp [ioPhase, hr, hw, hrec0] at h
    · obtain ⟨hc1, hc2⟩ := ih p.1 p.2 fd hrest (by rw [hrec0])
      by_cases hr : g ∈ readable ∨ g ∈ exceptional
      · by_cases hg : g ∈ ios
        · have h2 : TraceEv.ioRead g :: p.2 = tr := by
            have := h
            simp [ioPhase, hr, hg, hrec0] at this
            exact this.2
          rw [← h2]
          constructor <;> simp [List.count_cons, hc1, hc2, hgfd]
        · simp [ioPhase, hr, hg] at h
      · by_cases hw : g ∈ writable
        · by_cases hg : g ∈ ios
          · have h2 : TraceEv.ioWrite g :: p.2 = tr := by
              have := h
              simp [ioPhase, hr, hw, hg, hrec0] at this
              exact this.2
            rw [← h2]
            constructor <;> simp [List.count_cons, hc1, hc2, hgfd]
          · simp [ioPhase, hr, hw, hg] at h
        · have h2 : ioPhase ios readable writable exceptional rest = some (n, tr) := by
            have := h
            simp only [ioPhase] at this
            simpa [hr, hw] using this
          rw [hrec0] at h2
          obtain ⟨hn, htr⟩ := Prod.mk.injEq _ _ _ _ ▸ Option.some.inj h2
          rw [← htr]
          exact ⟨hc1, hc2⟩

/-- A descriptor that is both ready for reading (or exceptional) and ready
for writing is dispatched exactly once in the pass, on its read path. -/
theorem ioPhase_both_ready (ios readable writable exceptional : List Nat) :
    ∀ order : List Nat, order.Nodup →
      (∀ g ∈ order, g ∈ ios) →
      ∀ fd, fd ∈ order → (fd ∈ readable ∨ fd ∈ exceptional) →
      ∃ n tr, ioPhase ios readable writable exceptional order = some (n, tr) ∧
        tr.count (TraceEv.ioRead fd) = 1 ∧ tr.count (TraceEv.ioWrite fd) = 0 := by
  intro order
  induction order with
  | nil => intro _ _ fd h; cases h
  | cons g rest ih =>
    intro hnd hall fd hmem hready
    obtain ⟨hnin, hrest⟩ := List.nodup_cons.mp hnd
    have hallrest : ∀ x ∈ rest, x ∈ ios :=
      fun x hx => hall x (List.mem_cons_of_mem _ hx)
    by_cases hgfd : g = fd
    · subst hgfd
      obtain ⟨n, tr, hrec⟩ :=
        ioPhase_total ios readable writable exceptional rest hallrest
      obtain ⟨hc1, hc2⟩ :=
        ioPhase_count_out ios readable writable exceptional rest n tr g hnin hrec
      refine ⟨n + 1, TraceEv.ioRead g :: tr, ?_, ?_, ?_⟩
      · simp [ioPhase, hready, hall g (List.mem_cons_self _ _), hrec]
      · simp [List.count_cons, hc1]
      · simp [List.count_cons, hc2]
    · have hmem2 : fd ∈ rest := by
        rcases List.mem_cons.mp hmem with he | hm
        · exact absurd he.symm hgfd
        · exact hm
      obtain ⟨n, tr, hrec, hc1, hc2⟩ := ih hrest hallrest fd hmem2 hready
      have hg := hall g (List.mem_cons_self _ _)
      by_cases hgr : g ∈ readable ∨ g ∈ exceptional
      · refine ⟨n + 1, TraceEv.ioRead g :: tr, ?_, ?_, ?_⟩
        · simp [ioPhase, hgr, hg, hrec]
        · simp [List.count_cons, hc1, hgfd]
        · simp [List.count_cons, hc2]
      · by_cases hgw : g ∈ writable
        · refine ⟨n + 1, TraceEv.ioWrite g :: tr, ?_, ?_, ?_⟩
          · simp [ioPhase, hgr, hgw, hg, hrec]
          · simp [List.count_cons, hc1]
          · simp [List.count_cons, hc2, hgfd]
        · exact ⟨n, tr, by simp [ioPhase, hgr, hgw, hrec], hc1, hc2⟩

/-- Filtering the key list through a per-entry predicate equals filtering
the table itself, when keys are unique. -/
theorem filter_keys_eq (p : Timer → Bool) :
    ∀ ts : Timers, (ts.map Prod.fst).Nodup →
      (ts.map Prod.fst).filter (fun tid =>
          match timersGet ts tid with
          | some t => p t
          | none => false)
        = (ts.filter (fun q => p q.2)).map Prod.fst := by
  intro ts
  induction ts with
  | nil => intro _; rfl
  | cons q rest ih =>
    intro hnd
    rw [List.map_cons] at hnd
    obtain ⟨hnin, hrest⟩ := List.nodup_cons.mp hnd
    have hhead : timersGet (q :: rest) q.1 = some q.2 :=
      timersGet_cons_self q rest q.1 rfl
    have hcong : (rest.map Prod.fst).filter (fun tid =>
          match timersGet (q :: rest) tid with
          | some t => p t
          | none => false)
        = (rest.map Prod.fst).filter (fun tid =>
          match timersGet rest tid with
          | some t => p t
          | none => false) := by
      apply List.filter_congr
      intro k hk
      have hne : q.1 ≠ k := fun e => hnin (e ▸ hk)
      rw [timersGet_cons_ne q rest k hne]
    rw [List.map_cons, List.filter_cons, List.filter_cons]
    by_cases hp : p q.2 = true
    · rw [if_pos (by simp [hhead, hp]), if_pos (by simp [hp]), hcong,
        ih hrest, List.map_cons]
    · rw [if_neg (by simp [hhead, hp]), if_neg (by simp [hp]), hcong,
        ih hrest]

/-- The descriptor branch of `remove`, with its two local lets spelled
out. -/
theorem remove_handle (r : Reactor) (fd : Nat) :
    remove r (.handle (some fd)) =
      if r.ios.contains fd = true then
        ({ r with
            inputs := if r.inputs.contains fd = true then r.inputs.erase fd
              else r.inputs,
            outputs := if r.outputs.contains fd = true then r.outputs.erase fd
              else r.outputs,
            ios := r.ios.erase fd }, some true)
      else
        ({ r with
            inputs := if r.inputs.contains fd = true then r.inputs.erase fd
              else r.inputs,
            outputs := if r.outputs.contains fd = true then r.outputs.erase fd
              else r.outputs }, some false) := rfl

/-- The wait loop stops at once on an empty reactor. -/
theorem oneTickLoop_empty (iters : List IterIn) (r : Reactor)
    (ht : r.timers = []) (hi : r.ios = []) :
    oneTickLoop iters r = some (stop r, []) := by
  unfold oneTickLoop
  simp [ht, hi]

/-- `one_tick` on an empty reactor, any current `running` flag. -/
theorem one_tick_empty (iters : List IterIn) (r : Reactor)
    (ht : r.timers = []) (hi : r.ios = []) :
    one_tick iters r = some ({ r with running := false }, []) := by
  have h1 : oneTickLoop iters { r with running := true } = some (stop { r with running := true }, []) :=
    oneTickLoop_empty iters _ ht hi
  simp only [one_tick, h1, stop]
  rfl

/-- The `while self._running` loop returns at once when stopped. -/
theorem startLoop_stopped (os : List (List IterIn)) (r : Reactor)
    (h : r.running = false) : startLoop os r = some r := by
  unfold startLoop
  simp [h]

/-! ### The claims -/

/-- C1, counterexample.  A pass of the timer scan of `one_tick` at instant
10 over a table holding timer 0 (deadline 10, inserted first) and timer 1
(deadline 5, inserted second), both due, dispatches timer 0 strictly before
timer 1: the timer with the strictly earlier deadline is dispatched later,
refuting ascending-deadline dispatch order. -/
theorem c1_deadline_order_cex :
    timersGet tsPair 0
      = some { cb := true, after := 10, time := 10, recurring := none } ∧
    timersGet tsPair 1
      = some { cb := true, after := 5, time := 5, recurring := none } ∧
    (10 : Rat) ≤ 10 ∧ (5 : Rat) ≤ 10 ∧ (5 : Rat) < 10 ∧
    firedTids (timerPhase 10 (tsPair.map Prod.fst) tsPair).2.2 = [0, 1] ∧
    ¬ ((firedTids (timerPhase 10 (tsPair.map Prod.fst) tsPair).2.2).indexOf 1
        ≤ (firedTids (timerPhase 10 (tsPair.map Prod.fst) tsPair).2.2).indexOf 0) := by
  refine ⟨rfl, rfl, by norm_num, by norm_num, by norm_num, rfl, by decide⟩

/-- C1, amended.  In every pass of the timer scan, the callbacks invoked
are exactly the due entries with truthy callbacks, in the timer table's
iteration (insertion) order — deadlines play no part in the dispatch
order. -/
theorem c1_dispatch_table_order (now : Rat) (ts : Timers)
    (h : (ts.map Prod.fst).Nodup) :
    firedTids (timerPhase now (ts.map Prod.fst) ts).2.2
      = (ts.filter (fun q => !decide (now < q.2.time) && q.2.cb)).map Prod.fst := by
  rw [timerPhase_fired_keys now (ts.map Prod.fst) ts h]
  exact filter_keys_eq (fun t => !decide (now < t.time) && t.cb) ts h

/-- C1, witness: the amended theorem applied to the two-timer table. -/
theorem c1_dispatch_table_order_inst :
    firedTids (timerPhase 10 (tsPair.map Prod.fst) tsPair).2.2
      = (tsPair.filter (fun q => !decide ((10 : Rat) < q.2.time) && q.2.cb)).map
          Prod.fst :=
  c1_dispatch_table_order 10 tsPair (by decide)

/-- C4.  A due one-shot timer is removed from the timer table before its
callback is invoked: the table the callback observes no longer holds its
id, and the id is still absent when the scan ends. -/
theorem c4_oneshot_removed_before_callback (now : Rat) (ts : Timers)
    (tid : Nat) (t : Timer) (hnd : (ts.map Prod.fst).Nodup)
    (hget : timersGet ts tid = some t) (hone : t.recurring = none)
    (hdue : ¬ now < t.time) (hcb : t.cb = true) :
    ∃ tbl,
      TraceEv.fired tid false tbl ∈ (timerPhase now (ts.map Prod.fst) ts).2.2 ∧
      timersGet tbl tid = none ∧
      timersGet (timerPhase now (ts.map Prod.fst) ts).1 tid = none := by
  have hmem := timersGet_mem ts tid t hget
  obtain ⟨tbl, hev, htbl, hfin⟩ :=
    timerPhase_fires now (ts.map Prod.fst) ts tid t hnd hmem hget hdue hcb
  have hres : rescheduled now t = none := by simp [rescheduled, hone]
  have hsome : t.recurring.isSome = false := by simp [hone]
  rw [hres] at htbl hfin
  rw [hsome] at hev
  exact ⟨tbl, hev, htbl, hfin⟩

/-- C4, witness: the one-shot timer 3, due at instant 10, observed a table
without itself. -/
theorem c4_oneshot_removed_inst :
    ∃ tbl,
      TraceEv.fired 3 false tbl ∈ (timerPhase 10 (tsOne.map Prod.fst) tsOne).2.2 ∧
      timersGet tbl 3 = none ∧
      timersGet (timerPhase 10 (tsOne.map Prod.fst) tsOne).1 3 = none :=
  c4_oneshot_removed_before_callback 10 tsOne 3
    { cb := true, after := 2, time := 6, recurring := none }
    (by decide) rfl rfl (by decide) rfl

/-- C5.  A due recurring timer is rescheduled to `now + interval` — the
firing instant plus the unchanged interval, not the previous deadline plus
the interval — before its callback is invoked: the callback observes its
entry with the new deadline and all other fields (including the interval)
unchanged, and the scan leaves that entry in the final table. -/
theorem c5_recurring_rescheduled (now : Rat) (ts : Timers) (tid : Nat)
    (t : Timer) (iv : Rat) (hnd : (ts.map Prod.fst).Nodup)
    (hget : timersGet ts tid = some t) (hrec : t.recurring = some iv)
    (hdue : ¬ now < t.time) (hcb : t.cb = true) :
    ∃ tbl,
      TraceEv.fired tid true tbl ∈ (timerPhase now (ts.map Prod.fst) ts).2.2 ∧
      timersGet tbl tid = some { t with time := now + iv } ∧
      timersGet (timerPhase now (ts.map Prod.fst) ts).1 tid
        = some { t with time := now + iv } := by
  have hmem := timersGet_mem ts tid t hget
  obtain ⟨tbl, hev, htbl, hfin⟩ :=
    timerPhase_fires now (ts.map Prod.fst) ts tid t hnd hmem hget hdue hcb
  have hres : rescheduled now t = some { t with time := now + iv } := by
    simp [rescheduled, hrec]
  have hsome : t.recurring.isSome = true := by simp [hrec]
  rw [hres] at htbl hfin
  rw [hsome] at hev
  exact ⟨tbl, hev, htbl, hfin⟩

/-- C5, witness: the recurring timer 5 (interval 4, deadline 6) fired at
instant 10 is rescheduled to 14 = 10 + 4, interval intact. -/
theorem c5_recurring_rescheduled_inst :
    ∃ tbl,
      TraceEv.fired 5 true tbl ∈ (timerPhase 10 (tsRec.map Prod.fst) tsRec).2.2 ∧
      timersGet tbl 5
        = some { cb := true, after := 4, time := 14, recurring := some 4 } ∧
      timersGet (timerPhase 10 (tsRec.map Prod.fst) tsRec).1 5
        = some { cb := true, after := 4, time := 14, recurring := some 4 } := by
  have h := c5_recurring_rescheduled 10 tsRec 5
    { cb := true, after := 4, time := 6, recurring := some 4 } 4
    (by decide) rfl rfl (by decide) rfl
  have he : (10 : Rat) + 4 = 14 := by norm_num
  rw [he] at h
  exact h

/-- C6.  A reactor with zero timers and zero watchers auto-stops:
`one_tick` returns at once with `running = false` and an empty trace (no
multiplexing wait, no sleep, no dispatched event), and `start` on such a
reactor returns. -/
theorem c6_empty_reactor_autostop (iters : List IterIn)
    (os : List (List IterIn)) (r : Reactor)
    (ht : r.timers = []) (hi : r.ios = []) :
    one_tick iters r = some ({ r with running := false }, []) ∧
    start (iters :: os) r = some { r with running := false } := by
  refine ⟨one_tick_empty iters r ht hi, ?_⟩
  rw [start]
  unfold startLoop
  have h1 : one_tick iters { r with running := true }
      = some ({ r with running := false }, []) :=
    one_tick_empty iters { r with running := true } ht hi
  simp only [h1]
  simpa using startLoop_stopped os { r with running := false } rfl

/-- C6, witness: the empty reactor, with an empty oracle. -/
theorem c6_empty_reactor_autostop_inst :
    one_tick [] rEmpty = some ({ rEmpty with running := false }, []) ∧
    start [[]] rEmpty = some { rEmpty with running := false } :=
  c6_empty_reactor_autostop [] [] rEmpty rfl rfl

/-- C8.  In one multiplexing wait of `one_tick`, a descriptor that is both
readable (or exceptional) and writable is dispatched exactly once, on its
read path only: one read dispatch, no write dispatch, for that tick. -/
theorem c8_read_priority (ios readable writable exceptional order : List Nat)
    (fd : Nat) (hnd : order.Nodup) (hall : ∀ g ∈ order, g ∈ ios)
    (hmem : fd ∈ order) (hr : fd ∈ readable ∨ fd ∈ exceptional)
    (hw : fd ∈ writable) :
    ∃ n tr, ioPhase ios readable writable exceptional order = some (n, tr) ∧
      tr.count (TraceEv.ioRead fd) = 1 ∧ tr.count (TraceEv.ioWrite fd) = 0 :=
  ioPhase_both_ready ios readable writable exceptional order hnd hall fd hmem hr

/-- C8, witness: descriptor 4, readable and writable at once. -/
theorem c8_read_priority_inst :
    ∃ n tr, ioPhase [4] [4] [4] [] [4] = some (n, tr) ∧
      tr.count (TraceEv.ioRead 4) = 1 ∧ tr.count (TraceEv.ioWrite 4) = 0 :=
  c8_read_priority [4] [4] [4] [] [4] 4 (by decide) (by decide) (by decide)
    (Or.inl (by decide)) (by decide)

/-- C9.  `remove` is idempotent and reports whether it found the entry: a
live timer id is deleted (returning true); an absent timer id is a no-op
returning false; a watched descriptor is deleted from the watcher table and
from both interest sets (returning true); a fully absent descriptor is a
no-op returning false; a handle whose `fileno()` raises is caught and
reported not-found, never an error. -/
theorem c9_remove_idempotent (r : Reactor) (t fd : Nat)
    (hni : r.inputs.Nodup) (hno : r.outputs.Nodup) (hios : r.ios.Nodup) :
    (t ∈ r.timers.map Prod.fst →
      (remove r (.tid t)).2 = some true ∧
      t ∉ (remove r (.tid t)).1.timers.map Prod.fst) ∧
    (t ∉ r.timers.map Prod.fst → remove r (.tid t) = (r, some false)) ∧
    (fd ∈ r.ios →
      (remove r (.handle (some fd))).2 = some true ∧
      fd ∉ (remove r (.handle (some fd))).1.inputs ∧
      fd ∉ (remove r (.handle (some fd))).1.outputs ∧
      fd ∉ (remove r (.handle (some fd))).1.ios) ∧
    (fd ∉ r.ios → fd ∉ r.inputs → fd ∉ r.outputs →
      remove r (.handle (some fd)) = (r, some false)) ∧
    remove r (.handle none) = (r, some false) := by
  refine ⟨?_, ?_, ?_, ?_, rfl⟩
  · intro hmem
    have hc : (r.timers.map Prod.fst).contains t = true := by simpa using hmem
    constructor
    · show some (removeTimerTbl r.timers t).2 = some true
      rw [removeTimerTbl, if_pos hc]
    · show t ∉ ((removeTimerTbl r.timers t).1.map Prod.fst)
      rw [removeTimerTbl, if_pos hc]
      intro hmem2
      obtain ⟨q, hq, he⟩ := List.mem_map.mp hmem2
      have := List.of_mem_filter hq
      rw [he] at this
      simp at this
  · intro hmem
    have hc : ¬ (r.timers.map Prod.fst).contains t = true := by simpa using hmem
    show ({ r with timers := (removeTimerTbl r.timers t).1 },
      some (removeTimerTbl r.timers t).2) = (r, some false)
    rw [removeTimerTbl, if_neg hc]
  · intro hmem
    have hc : r.ios.contains fd = true := by simpa using hmem
    rw [remove_handle, if_pos hc]
    refine ⟨rfl, ?_, ?_, ?_⟩
    · show fd ∉ (if r.inputs.contains fd = true then r.inputs.erase fd
        else r.inputs)
      by_cases h2 : r.inputs.contains fd = true
      · rw [if_pos h2]
        intro habs
        exact ((hni.mem_erase_iff).mp habs).1 rfl
      · rw [if_neg h2]
        intro habs
        exact h2 (by simpa using habs)
    · show fd ∉ (if r.outputs.contains fd = true then r.outputs.erase fd
        else r.outputs)
      by_cases h2 : r.outputs.contains fd = true
      · rw [if_pos h2]
        intro habs
        exact ((hno.mem_erase_iff).mp habs).1 rfl
      · rw [if_neg h2]
        intro habs
        exact h2 (by simpa using habs)
    · show fd ∉ r.ios.erase fd
      intro habs
      exact ((hios.mem_erase_iff).mp habs).1 rfl
  · intro h1 h2 h3
    have hc1 : ¬ r.ios.contains fd = true := by simpa using h1
    have hc2 : ¬ r.inputs.contains fd = true := by simpa using h2
    have hc3 : ¬ r.outputs.contains fd = true := by simpa using h3
    rw [remove_handle, if_neg hc1, if_neg hc2, if_neg hc3]

/-- C9, witness: the found cases at a one-timer, one-descriptor reactor and
the absent cases at the empty reactor. -/
theorem c9_remove_idempotent_inst :
    ((remove rOne (.tid 3)).2 = some true ∧
      3 ∉ (remove rOne (.tid 3)).1.timers.map Prod.fst) ∧
    remove rEmpty (.tid 3) = (rEmpty, some false) ∧
    ((remove rOne (.handle (some 9))).2 = some true ∧
      9 ∉ (remove rOne (.handle (some 9))).1.inputs ∧
      9 ∉ (remove rOne (.handle (some 9))).1.outputs ∧
      9 ∉ (remove rOne (.handle (some 9))).1.ios) ∧
    remove rEmpty (.handle (some 9)) = (rEmpty, some false) ∧
    remove rOne (.handle none) = (rOne, some false) := by
  obtain ⟨h1, _, h3, _, h5⟩ :=
    c9_remove_idempotent rOne 3 9 (by decide) (by decide) (by decide)
  obtain ⟨_, g2, _, g4, _⟩ :=
    c9_remove_idempotent rEmpty 3 9 (by decide) (by decide) (by decide)
  exact ⟨h1 (by decide), g2 (by decide), h3 (by decide),
    g4 (by decide) (by decide) (by decide), h5⟩

theorem watch_inputs_subset (r : Reactor) (fd : Nat) (read write : Bool) :
    r.inputs ⊆ (watch r fd read write).inputs := by
  show r.inputs ⊆
    (if (read && !(r.inputs.contains fd)) = true then r.inputs ++ [fd]
     else r.inputs)
  by_cases h : (read && !(r.inputs.contains fd)) = true
  · rw [if_pos h]
    exact List.subset_append_left _ _
  · rw [if_neg h]
    exact List.Subset.refl _

theorem watch_outputs_subset (r : Reactor) (fd : Nat) (read write : Bool) :
    r.outputs ⊆ (watch r fd read write).outputs := by
  show r.outputs ⊆
    (if (write && !(r.outputs.contains fd)) = true then r.outputs ++ [fd]
     else r.outputs)
  by_cases h : (write && !(r.outputs.contains fd)) = true
  · rw [if_pos h]
    exact List.subset_append_left _ _
  · rw [if_neg h]
    exact List.Subset.refl _

/-- C10.  `watch` never removes interest: with the read flag false the read
interest set is untouched, with the write flag false the write interest set
is untouched, `watch` only ever extends the interest sets and changes no
other reactor field, and `io` (which registers the callback record and then
calls `watch(handle, 1, 1)`) likewise only extends them. -/
theorem c10_watch_only_adds (r : Reactor) (fd : Nat) (read write : Bool) :
    (watch r fd false write).inputs = r.inputs ∧
    (watch r fd read false).outputs = r.outputs ∧
    r.inputs ⊆ (watch r fd read write).inputs ∧
    r.outputs ⊆ (watch r fd read write).outputs ∧
    (watch r fd read write).timers = r.timers ∧
    (watch r fd read write).ios = r.ios ∧
    (watch r fd read write).running = r.running ∧
    r.inputs ⊆ (ioReg r fd).inputs ∧
    r.outputs ⊆ (ioReg r fd).outputs := by
  refine ⟨rfl, rfl, watch_inputs_subset r fd read write,
    watch_outputs_subset r fd read write, rfl, rfl, rfl, ?_, ?_⟩
  · show r.inputs ⊆ (watch
      (if r.ios.contains fd = true then r else { r with ios := r.ios ++ [fd] })
      fd true true).inputs
    by_cases hio : r.ios.contains fd = true
    · rw [if_pos hio]
      exact watch_inputs_subset r fd true true
    · rw [if_neg hio]
      exact watch_inputs_subset { r with ios := r.ios ++ [fd] } fd true true
  · show r.outputs ⊆ (watch
      (if r.ios.contains fd = true then r else { r with ios := r.ios ++ [fd] })
      fd true true).outputs
    by_cases hio : r.ios.contains fd = true
    · rw [if_pos hio]
      exact watch_outputs_subset r fd true true
    · rw [if_neg hio]
      exact watch_outputs_subset { r with ios := r.ios ++ [fd] } fd true true

/-- C3.  While a write is in progress for a connection (its writing flag is
set), a second write request for the same id is a silent no-op: no chunk is
pulled from the transaction, nothing is written to the stream, no
completion callback is scheduled, and the engine state is unchanged. -/
theorem c3_write_reentry_noop (ua : UA) (cid : Nat) (c : Conn)
    (hc : connGet ua cid = some c) (hw : c.writing = true) :
    uaWrite ua cid = ([], Except.ok ua) := by
  simp only [uaWrite, hc]
  cases hp : c.tx.present <;> cases hiw : c.tx.isWriting <;>
    simp [hp, hiw, hw]

/-- C3, witness: connection 7 of the busy engine has its writing flag set;
the re-entrant write request returns the state unchanged with no events. -/
theorem c3_write_reentry_noop_inst :
    uaWrite uaBusy 7 = ([], Except.ok uaBusy) :=
  c3_write_reentry_noop uaBusy 7 { nb := true, tx := txW, writing := true }
    rfl rfl

/-- C2.  Evaluating `_start` with a nonzero request timeout: the request
timer is armed, exactly once, with the message Request timeout — but
`_start` then raises `AttributeError` on the assignment target
`self.connections[id][timeout]` (the class defines `_connections`, not
`connections`) instead of recording the timer id and returning the
connection id; with a zero timeout it returns the id without raising. -/
theorem c2_start_timeout_raises :
    (uaStart { connections := [] } true txW 7 3).2
      = Except.error (PyErr.attributeError "connections") ∧
    (uaStart { connections := [] } true txW 7 3).1
      = [UAEv.emittedStart, UAEv.connectRequested 7,
         UAEv.timerArmed 7 "Request timeout" 3] ∧
    (uaStart { connections := [] } true txW 7 0).2
      = Except.ok
          ({ connections := [(7, { nb := true, tx := txW, writing := false })] },
           7) :=
  ⟨rfl, rfl, rfl⟩

/-- C7.  The reference discipline of the four stream handlers installed by
`client_cb`: every one reaches the engine through the strong closed-over
`self`, none through the weak proxy `connect_vars.ua`, and the only guards
present (on close and error) test the event-emitter argument that shadows
the proxy — so no handler implements the claimed weak-reference no-op
pattern for a vanished engine. -/
theorem c7_stream_handlers_strong :
    streamHandlers.all (fun h => h.engineRef == RefKind.strongSelf) = true ∧
    streamHandlers.all (fun h => h.engineRef == RefKind.weakProxy) = false ∧
    (streamHandlers.filter (fun h => h.guardsOn == some RefKind.eventArg)).map
        (fun h => h.event) = ["close", "error"] :=
  ⟨rfl, rfl, rfl⟩

end Pyjo
